import Mathlib

/-!
Verification of the web-scraper pipeline (src/main.py) against its
specification.  The Python program is shallowly embedded: pure functions
become Lean functions, the network is an oracle `net : String → FetchOutcome`,
the SQLite store is an explicit `Store` value, and the asyncio gather step is
modelled by an explicit completion-order semantics.
-/

set_option maxHeartbeats 1000000

namespace Scraper

/-- The `ScrapedItem` dataclass of `src/main.py`: `title`, `description`,
`url`, all text. -/
structure ScrapedItem where
  title : String
  description : String
  url : String
deriving DecidableEq, Repr

/-! ## Robots-exclusion policy (`urllib.robotparser.RobotFileParser`)

`WebScraper.__init__` builds a `RobotFileParser`, points it at
`{base_url}/robots.txt` and calls `read()`.  The parser state and the
`read` / `can_fetch` logic below are embedded from CPython's
`Lib/urllib/robotparser.py`, which is the code that decides policy
questions for this program. -/

/-- One `Allow`/`Disallow` line of a robots.txt entry
(`robotparser.RuleLine`): `path` pattern and `allowance` (true = Allow). -/
structure RuleLine where
  path : String
  allowance : Bool
deriving DecidableEq, Repr

/-- `RuleLine.applies_to`: the rule applies when its path is `"*"` or is a
prefix of the (normalised) url path. -/
def RuleLine.appliesTo (l : RuleLine) (filename : String) : Bool :=
  l.path = "*" || l.path.isPrefixOf filename

/-- A user-agent group of robots.txt (`robotparser.Entry`). -/
structure Entry where
  useragents : List String
  rulelines : List RuleLine
deriving DecidableEq, Repr

/-- Bool-valued infix test on character lists, used to embed Python's
`agent in useragent` substring test. -/
def listInfix (small big : List Char) : Bool :=
  big.tails.any (fun t => small.isPrefixOf t)

/-- `Entry.applies_to`: the group applies to a user agent when one of its
agent tokens is `"*"` or occurs (case-insensitively) inside the agent
name's first `/`-component. -/
def Entry.appliesTo (e : Entry) (useragent : String) : Bool :=
  let ua := ((useragent.splitOn "/").headD "").toLower
  e.useragents.any (fun agent => agent = "*" || listInfix agent.toLower.data ua.data)

/-- `Entry.allowance`: first matching rule line wins; no match means
allowed. -/
def Entry.allowance (e : Entry) (filename : String) : Bool :=
  match e.rulelines.find? (fun l => l.appliesTo filename) with
  | some l => l.allowance
  | none => true

/-- The mutable state of a `RobotFileParser` after `read()` has run:
`disallow_all` / `allow_all` fallback flags, whether `parse` ran
(`last_checked` timestamp being nonzero), the user-agent entries and the
`"*"` default entry. -/
structure RobotState where
  disallow_all : Bool := false
  allow_all : Bool := false
  last_checked : Bool := false
  entries : List Entry := []
  default_entry : Option Entry := none
deriving DecidableEq, Repr

/-- `RobotFileParser.can_fetch(useragent, url)`.  `pathOf` stands for the
`urlparse`/`quote` normalisation that turns the full url into the path
string matched against rule lines (pure plumbing, kept abstract). -/
def can_fetch (pathOf : String → String) (st : RobotState) (useragent url : String) : Bool :=
  if st.disallow_all then false
  else if st.allow_all then true
  else if !st.last_checked then false
  else
    match st.entries.find? (fun e => e.appliesTo useragent) with
    | some e => e.allowance (pathOf url)
    | none =>
      match st.default_entry with
      | some e => e.allowance (pathOf url)
      | none => true

/-- Outcome of the HTTP GET for `robots.txt` issued by
`RobotFileParser.read()` (via `urlopen`): a transport-level failure
(`URLError`), an HTTP error status (`HTTPError`), or a body. -/
inductive RobotsFetch where
  | transportError
  | httpError (code : Nat)
  | ok (body : String)
deriving DecidableEq, Repr

/-- `URLError` escaping `RobotFileParser.read()` and hence
`WebScraper.__init__`. -/
inductive UrlErr where
  | urlError
deriving DecidableEq, Repr

/-- `RobotFileParser.read()`: fetch robots.txt; `HTTPError` 401/403 sets
`disallow_all`, any other 4xx sets `allow_all`, other `HTTPError` codes
leave the default state (so `last_checked` stays unset); a non-HTTP
`URLError` propagates; a body is handed to `parse` (kept abstract here:
`parseRobots` stands for `RobotFileParser.parse`, which always records
`last_checked`). -/
def RobotFileParser.read (parseRobots : String → RobotState) :
    RobotsFetch → Except UrlErr RobotState
  | .transportError => .error .urlError
  | .httpError code =>
      if code = 401 || code = 403 then .ok { disallow_all := true }
      else if 400 ≤ code && code < 500 then .ok { allow_all := true }
      else .ok {}
  | .ok body => .ok (parseRobots body)

/-! ## Fetching (`async_fetch_page`, `fetch_page`)

The network is an oracle `net : String → FetchOutcome` giving, for each
url, what its HTTP GET would produce.  Each fetch function returns the
`Optional[str]` result of the Python function together with a `Bool`
recording whether a network request was issued for the url. -/

/-- What an HTTP GET for a page would produce: a client/transport error
(`aiohttp.ClientError` / `requests.RequestException`), or a response with
a status code and a body. -/
inductive FetchOutcome where
  | clientError
  | response (status : Nat) (body : String)
deriving DecidableEq, Repr

/-- `WebScraper.async_fetch_page` (src/main.py:77-87): if
`robot_parser.can_fetch("*", url)` is false, log and return `None` with no
request; otherwise GET the url and return `await response.text()` — the
body is returned whatever the status code, since no `raise_for_status` is
called and only `aiohttp.ClientError` is caught.  Result: `(Optional[str],
request issued?)`. -/
def async_fetch_page (pathOf : String → String) (st : RobotState)
    (net : String → FetchOutcome) (url : String) : Option String × Bool :=
  if !(can_fetch pathOf st "*" url) then (none, false)
  else
    match net url with
    | .clientError => (none, true)
    | .response _ body => (some body, true)

/-- `WebScraper.fetch_page` (src/main.py:53-64), the synchronous variant:
same policy gate, but calls `response.raise_for_status()`, which raises
(and is caught, yielding `None`) for any status ≥ 400. -/
def fetch_page (pathOf : String → String) (st : RobotState)
    (net : String → FetchOutcome) (url : String) : Option String × Bool :=
  if !(can_fetch pathOf st "*" url) then (none, false)
  else
    match net url with
    | .clientError => (none, true)
    | .response status body => if 400 ≤ status then (none, true) else (some body, true)

/-- The per-url results of the fetch phase of `async_scrape`, in input
order: the value `asyncio.gather` returns for `tasks`. -/
def fetchPhase (pathOf : String → String) (st : RobotState)
    (net : String → FetchOutcome) (urls : List String) : List (Option String) :=
  urls.map (fun u => (async_fetch_page pathOf st net u).1)

/-- The urls for which the fetch phase actually issues a network request. -/
def requestedUrls (pathOf : String → String) (st : RobotState)
    (net : String → FetchOutcome) (urls : List String) : List String :=
  urls.filter (fun u => (async_fetch_page pathOf st net u).2)

/-! ## `asyncio.gather` with explicit completion order

`async_scrape` builds one task per url and gathers them.  Each task's
result is deposited in the slot of its own index; the order in which
tasks complete is an arbitrary sequence of indices.  `gatherRun` replays
a completion order over the per-task results. -/

/-- One task completion: task `i` writes its own result into its own
slot. -/
def gatherStep (results : List α) (slots : List (Option α)) (i : Nat) : List (Option α) :=
  match results[i]? with
  | some r => slots.set i (some r)
  | none => slots

/-- Replay `asyncio.gather`: starting from an all-`none` slot list of the
tasks' results, the tasks complete in the order given by `order`. -/
def gatherRun (results : List α) (order : List Nat) : List (Option α) :=
  order.foldl (gatherStep results) (List.replicate results.length none)

/-! ## Parsing and extraction (`parse_page`, `extract_data`)

`parse_page` runs BeautifulSoup over the html; a parsed document is
modelled as the sequence of its tags, each with a name, attributes and
text.  `soup.find(name)` is the first tag with that name;
`soup.find('meta', attrs={'name': 'description'})` is the first `meta`
tag carrying the attribute pair `name=description`; `tag['content']`
raises `KeyError` when the attribute is absent. -/

/-- An HTML tag as BeautifulSoup exposes it to `extract_data`: tag name,
attribute list, and `.text`. -/
structure Tag where
  name : String
  attrs : List (String × String)
  text : String
deriving DecidableEq, Repr

/-- A parsed document: its tags in document order. -/
def Soup : Type := List Tag

/-- `soup.find(name)`: first tag with the given name. -/
def Soup.find (soup : Soup) (n : String) : Option Tag :=
  List.find? (fun t => t.name = n) soup

/-- `soup.find('meta', attrs={'name': 'description'})`. -/
def Soup.findMetaDescription (soup : Soup) : Option Tag :=
  List.find? (fun t => t.name = "meta" && (t.attrs.contains ("name", "description") : Bool)) soup

/-- `tag[key]` attribute lookup; `none` models the `KeyError` raised when
the attribute is absent. -/
def Tag.getAttr (t : Tag) (k : String) : Option String :=
  (t.attrs.find? (fun p => p.1 = k)).map (fun p => p.2)

/-- A Python exception escaping `extract_data`. -/
inductive ExtractErr where
  | keyError (key : String)
deriving DecidableEq, Repr

/-- `WebScraper.extract_data` (src/main.py:69-75): title is the stripped
text of the first `h1` (empty if none); description is
`description['content']` of the first `meta name=description` tag if such
a tag exists (a `KeyError` escapes when the tag lacks `content`), else
empty. -/
def extract_data (soup : Soup) (url : String) : Except ExtractErr ScrapedItem :=
  let title := match soup.find "h1" with
    | some t => t.text.trim
    | none => ""
  match soup.findMetaDescription with
  | some t =>
      match t.getAttr "content" with
      | some c => .ok { title := title, description := c, url := url }
      | none => .error (.keyError "content")
  | none => .ok { title := title, description := "", url := url }

/-- The title component of `extract_data`: stripped text of the first
`h1`, or the empty string. -/
def titleOf (soup : Soup) : String :=
  match soup.find "h1" with
  | some t => t.text.trim
  | none => ""

/-! ## The SQLite store (`_setup_database`, `_save_to_database`)

The table `scraped_items(id AUTOINCREMENT, title, description, url
UNIQUE)` is a list of rows plus the next autoincrement id.
`INSERT OR REPLACE ... (title, description, url)` deletes any row whose
unique `url` column conflicts and inserts a fresh row. -/

/-- A row of the `scraped_items` table. -/
structure Row where
  id : Nat
  title : String
  description : String
  url : String
deriving DecidableEq, Repr

/-- The `scraped_items` table plus the autoincrement counter. -/
structure Store where
  rows : List Row
  nextId : Nat
deriving DecidableEq, Repr

/-- The table right after `CREATE TABLE IF NOT EXISTS` on a fresh
database file. -/
def Store.empty : Store := { rows := [], nextId := 1 }

/-- `WebScraper._save_to_database` (src/main.py:105-111):
`INSERT OR REPLACE INTO scraped_items (title, description, url)` —
rows conflicting on the unique `url` are removed and a fresh row with a
new id is appended. -/
def save_to_database (s : Store) (item : ScrapedItem) : Store :=
  { rows := s.rows.filter (fun r => r.url ≠ item.url) ++
      [{ id := s.nextId, title := item.title, description := item.description, url := item.url }],
    nextId := s.nextId + 1 }

/-- `SELECT title, description FROM scraped_items WHERE url = ?`. -/
def Store.lookup (s : Store) (url : String) : Option (String × String) :=
  (s.rows.find? (fun r => r.url = url)).map (fun r => (r.title, r.description))

/-- Number of rows holding a given url. -/
def Store.countUrl (s : Store) (url : String) : Nat :=
  (s.rows.filter (fun r => r.url = url)).length

/-- The UNIQUE constraint on `url`: at most one row per url. -/
def Store.WF (s : Store) : Prop :=
  ∀ url, s.countUrl url ≤ 1

/-- A sequence of upserts applied in order. -/
def applyUpserts (items : List ScrapedItem) (s : Store) : Store :=
  items.foldl save_to_database s

/-! ## URL generation and the pipeline (`async_scrape`)

`async_scrape` builds `urls = [f"{base_url}/page/{page}" for page in
range(1, max_pages + 1)]`, gathers one fetch per url, then walks
`zip(urls, pages)`: a truthy body is parsed, extracted, appended to
`all_data` and upserted; a falsy one (`None` or the empty string) is
skipped. -/

/-- Decimal digit characters of `n`, most significant first (Python's
`f"{page}"` rendering of a non-negative integer); `fuel` bounds the
division recursion and `fuel = n` always suffices. -/
def natDecAux : Nat → Nat → List Char
  | 0, _ => []
  | _, 0 => []
  | fuel + 1, n + 1 =>
      natDecAux fuel ((n + 1) / 10) ++ [Char.ofNat (48 + (n + 1) % 10)]

/-- Python's decimal rendering of a natural number (`natDec 0 = ""`, never
used: pages start at 1). -/
def natDec (n : Nat) : String := ⟨natDecAux n n⟩

/-- Decimal value of a digit string, a left inverse of `natDec` used to
prove generated urls distinct. -/
def decVal (cs : List Char) : Nat :=
  cs.foldl (fun acc c => acc * 10 + (c.toNat - 48)) 0

/-- The url list of `async_scrape` (src/main.py:90):
`{base_url}/page/{page}` for `page` in `1 .. max_pages`. -/
def genUrls (base : String) (max_pages : Nat) : List String :=
  (List.range' 1 max_pages).map (fun page => base ++ "/page/" ++ natDec page)

/-- Python truthiness of an `Optional[str]`: `if html:` is false for
`None` and for the empty string. -/
def truthy : Option String → Bool
  | none => false
  | some s => !(s = "")

/-- The extraction-and-persist loop of `async_scrape`
(src/main.py:95-101): for each `(url, html)` with truthy `html`, parse,
extract, append to `all_data`, upsert; an exception from `extract_data`
aborts the loop (the Python call is unguarded). -/
def processPages (parse : String → Soup) :
    List (String × Option String) → Store → Except ExtractErr (List ScrapedItem × Store)
  | [], store => .ok ([], store)
  | (url, html) :: rest, store =>
      if truthy html then
        match extract_data (parse (html.getD "")) url with
        | .error e => .error e
        | .ok item =>
            match processPages parse rest (save_to_database store item) with
            | .error e => .error e
            | .ok (items, store') => .ok (item :: items, store')
      else processPages parse rest store

/-- `WebScraper.async_scrape` (src/main.py:89-103): generate urls, gather
the per-url fetch results, then extract and persist the truthy pages,
returning `all_data` and the final store. -/
def async_scrape (pathOf : String → String) (parse : String → Soup) (st : RobotState)
    (net : String → FetchOutcome) (base : String) (max_pages : Nat) (store : Store) :
    Except ExtractErr (List ScrapedItem × Store) :=
  let urls := genUrls base max_pages
  processPages parse (urls.zip (fetchPhase pathOf st net urls)) store

/-- `main` through scraping (src/main.py:125-130): `WebScraper.__init__`
loads robots.txt — an exception there aborts the run before any page
fetch — then `async_scrape` runs. -/
def runMain (pathOf : String → String) (parseRobots : String → RobotState)
    (parse : String → Soup) (robots : RobotsFetch) (net : String → FetchOutcome)
    (base : String) (max_pages : Nat) :
    Except UrlErr (Except ExtractErr (List ScrapedItem × Store)) :=
  match RobotFileParser.read parseRobots robots with
  | .error e => .error e
  | .ok st => .ok (async_scrape pathOf parse st net base max_pages Store.empty)

/-! ## CSV export (`export_to_csv`) and a CSV reader

`export_to_csv` uses `csv.DictWriter` with fieldnames
`['title', 'description', 'url']` and the default `excel` dialect:
delimiter `,`, quote char `"`, `QUOTE_MINIMAL` (a field is quoted iff it
contains the delimiter, the quote char, `\r` or `\n`; quotes are doubled),
line terminator `\r\n`.  The reader below embeds `csv.reader` on such
text.  Both sides work over `List Char`. -/

/-- `QUOTE_MINIMAL`: does this field need quoting? -/
def needsQuote (s : List Char) : Bool :=
  s.any (fun c => c = ',' || c = '"' || c = '\r' || c = '\n')

/-- Double every quote char (`doublequote=True`). -/
def escapeQuotes : List Char → List Char
  | [] => []
  | c :: rest => if c = '"' then '"' :: '"' :: escapeQuotes rest else c :: escapeQuotes rest

/-- Render one field under `QUOTE_MINIMAL`. -/
def writeField (s : List Char) : List Char :=
  if needsQuote s then '"' :: (escapeQuotes s ++ ['"']) else s

/-- Comma-join the rendered fields of one record. -/
def writeRecord : List (List Char) → List Char
  | [] => []
  | [f] => writeField f
  | f :: rest => writeField f ++ ',' :: writeRecord rest

/-- One CSV line: the record plus the `\r\n` terminator. -/
def writeLine (fs : List (List Char)) : List Char :=
  writeRecord fs ++ ['\r', '\n']

/-- The header fields `title,description,url` written by `writeheader()`. -/
def headerFields : List (List Char) := ["title".data, "description".data, "url".data]

/-- The three cells `writerow(asdict(item))` emits for an item. -/
def itemFields (i : ScrapedItem) : List (List Char) := [i.title.data, i.description.data, i.url.data]

/-- `WebScraper.export_to_csv` (src/main.py:113-119): the full text written
to the csv file. -/
def export_to_csv (items : List ScrapedItem) : String :=
  ⟨((headerFields :: items.map itemFields).map writeLine).flatten⟩

/-- Read a quoted field after its opening quote: a doubled quote is a
literal quote, a single quote closes the field; `none` on unterminated
input. -/
def parseQuoted : List Char → Option (List Char × List Char)
  | [] => none
  | c :: rest =>
      if c = '"' then
        match rest with
        | c2 :: rest2 =>
            if c2 = '"' then (parseQuoted rest2).map (fun p => ('"' :: p.1, p.2))
            else some ([], rest)
        | [] => some ([], [])
      else (parseQuoted rest).map (fun p => (c :: p.1, p.2))

/-- Does this character end an unquoted field? -/
def isFieldEnd (c : Char) : Bool := c = ',' || c = '\r' || c = '\n'

/-- Read one field: quoted if it starts with the quote char, else all
characters up to a delimiter or record end. -/
def parseField (s : List Char) : Option (List Char × List Char) :=
  match s with
  | [] => some ([], [])
  | c :: rest =>
      if c = '"' then parseQuoted rest
      else some (s.takeWhile (fun x => !isFieldEnd x), s.dropWhile (fun x => !isFieldEnd x))

/-- Read one record: fields separated by commas, terminated by a line end
or the end of input.  `fuel` bounds the number of fields. -/
def parseRecord : Nat → List Char → Option (List (List Char) × List Char)
  | 0, _ => none
  | fuel + 1, s =>
      match parseField s with
      | none => none
      | some (f, rest) =>
          match rest with
          | ',' :: rest2 => (parseRecord fuel rest2).map (fun p => (f :: p.1, p.2))
          | '\r' :: '\n' :: rest2 => some ([f], rest2)
          | '\n' :: rest2 => some ([f], rest2)
          | [] => some ([f], [])
          | _ => none

/-- Read all records of a CSV text.  `fuel` bounds the number of
records. -/
def parseRows : Nat → List Char → Option (List (List (List Char)))
  | 0, s => if s = [] then some [] else none
  | fuel + 1, s =>
      if s = [] then some []
      else
        match parseRecord (s.length + 1) s with
        | none => none
        | some (r, rest) => (parseRows fuel rest).map (fun rs => r :: rs)

/-- Parse a CSV text into its records of string cells (`csv.reader`). -/
def parseCSV (s : String) : Option (List (List String)) :=
  (parseRows s.data.length s.data).map (List.map (List.map (fun cs => (⟨cs⟩ : String))))

/-- View a parsed CSV record as a `(title, description, url)` tuple. -/
def rowToTuple : List String → String × String × String
  | [t, d, u] => (t, d, u)
  | _ => ("", "", "")

/-- Parse an exported CSV text back: drop the header record, view each
remaining record as a `(title, description, url)` tuple. -/
def parseBackTuples (csv : String) : Option (List (String × String × String)) :=
  (parseCSV csv).map (fun rows => rows.tail.map rowToTuple)

/-! ## In-flight requests of the gather step

`async_scrape` dispatches one task per url and gathers them with no
semaphore or pool: any interleaving in which each task starts once and
finishes once after starting is admissible.  `Sched n evs started
inflight` says: after the event sequence `evs` over `n` tasks, `started`
lists the tasks started so far and `inflight` the requests currently in
flight. -/

/-- A scheduling event of the fetch phase: task `i` issues its request /
task `i`'s response arrives. -/
inductive FetchEv where
  | start (i : Nat)
  | finish (i : Nat)
deriving DecidableEq, Repr

/-- Admissible executions of the unbounded gather over `n` tasks. -/
inductive Sched (n : Nat) : List FetchEv → List Nat → List Nat → Prop where
  | nil : Sched n [] [] []
  | start (i : Nat) (h1 : i < n) (h2 : i ∉ started)
      (prev : Sched n evs started inflight) :
      Sched n (evs ++ [FetchEv.start i]) (i :: started) (i :: inflight)
  | finish (i : Nat) (h : i ∈ inflight)
      (prev : Sched n evs started inflight) :
      Sched n (evs ++ [FetchEv.finish i]) started (inflight.erase i)

/-! ## Concrete instances used by witnesses and counterexamples -/

/-- A network in which `/page/2` answers HTTP 500 and every other url
answers HTTP 200. -/
def demoNet500 : String → FetchOutcome := fun u =>
  if u = "https://example.com/page/2" then .response 500 "Internal Server Error"
  else .response 200 "page ok"

/-- A `RobotFileParser` state after a successful parse of a robots.txt
with no rules: everything is allowed. -/
def allowState : RobotState := { last_checked := true }

/-- A `RobotFileParser` state denying everything. -/
def denyState : RobotState := { disallow_all := true }

/-- A trivial robots parse used where the parse result is irrelevant. -/
def trivialRobots : String → RobotState := fun _ => allowState

/-- A trivial html parse (no tags found) used where parsing is
irrelevant. -/
def trivialParse : String → Soup := fun _ => []

/-! ## Theorems -/

theorem async_fetch_page_denied (pathOf : String → String) (st : RobotState)
    (net : String → FetchOutcome) (u : String) (h : can_fetch pathOf st "*" u = false) :
    async_fetch_page pathOf st net u = (none, false) := by
  unfold async_fetch_page
  rw [h]
  rfl

/-- C1: if the loaded ruleset denies a url, the fetcher issues no network
request for it and its result is `None` (the `PolicyDenied` failure), and
the fetch phase still produces the results of every other url of the
requested sequence unchanged. -/
theorem C1_policy_denied_skips (pathOf : String → String) (st : RobotState)
    (net : String → FetchOutcome) (pre post : List String) (u : String)
    (h : can_fetch pathOf st "*" u = false) :
    async_fetch_page pathOf st net u = (none, false) ∧
    fetchPhase pathOf st net (pre ++ u :: post) =
      fetchPhase pathOf st net pre ++ none :: fetchPhase pathOf st net post ∧
    requestedUrls pathOf st net (pre ++ u :: post) =
      requestedUrls pathOf st net pre ++ requestedUrls pathOf st net post := by
  have h1 := async_fetch_page_denied pathOf st net u h
  refine ⟨h1, ?_, ?_⟩
  · simp [fetchPhase, h1]
  · simp [requestedUrls, h1]

/-- C1 witness: a denying ruleset at a concrete url, inside a concrete
three-url sequence. -/
theorem C1_policy_denied_skips_witness :
    async_fetch_page id denyState (fun _ => .response 200 "ok") "https://example.com/page/2" = (none, false) ∧
    fetchPhase id denyState (fun _ => .response 200 "ok")
        (["https://example.com/page/1"] ++ "https://example.com/page/2" :: ["https://example.com/page/3"]) =
      fetchPhase id denyState (fun _ => .response 200 "ok") ["https://example.com/page/1"] ++
        none :: fetchPhase id denyState (fun _ => .response 200 "ok") ["https://example.com/page/3"] ∧
    requestedUrls id denyState (fun _ => .response 200 "ok")
        (["https://example.com/page/1"] ++ "https://example.com/page/2" :: ["https://example.com/page/3"]) =
      requestedUrls id denyState (fun _ => .response 200 "ok") ["https://example.com/page/1"] ++
        requestedUrls id denyState (fun _ => .response 200 "ok") ["https://example.com/page/3"] :=
  C1_policy_denied_skips id denyState (fun _ => .response 200 "ok")
    ["https://example.com/page/1"] ["https://example.com/page/3"]
    "https://example.com/page/2" rfl

theorem processPages_cons (parse : String → Soup) (pu : String) (ph : Option String)
    (rest : List (String × Option String)) (store : Store) :
    processPages parse ((pu, ph) :: rest) store =
      if truthy ph then
        match extract_data (parse (ph.getD "")) pu with
        | .error e => .error e
        | .ok item =>
            match processPages parse rest (save_to_database store item) with
            | .error e => .error e
            | .ok (items, st) => .ok (item :: items, st)
      else processPages parse rest store := rfl

/-- C10: a gathered page whose body is the empty string is handled by the
extraction loop exactly as a failed fetch (`None`): skipped, not
extracted, not persisted, contributing no item. -/
theorem C10_empty_body_skipped (parse : String → Soup)
    (pre post : List (String × Option String)) (u : String) (store : Store) :
    processPages parse (pre ++ (u, some "") :: post) store =
      processPages parse (pre ++ (u, none) :: post) store ∧
    processPages parse (pre ++ (u, some "") :: post) store =
      processPages parse (pre ++ post) store := by
  induction pre generalizing store with
  | nil =>
      constructor
      · simp [processPages, truthy]
      · simp [processPages, truthy]
  | cons p pre ih =>
      obtain ⟨pu, ph⟩ := p
      constructor
      · simp only [List.cons_append]
        rw [processPages_cons, processPages_cons]
        by_cases ht : truthy ph
        · simp only [ht, if_true]
          cases extract_data (parse (ph.getD "")) pu with
          | error e => rfl
          | ok item =>
              dsimp only
              rw [(ih (save_to_database store item)).1]
        · simp only [ht, if_false]
          exact (ih store).1
      · simp only [List.cons_append]
        rw [processPages_cons, processPages_cons]
        by_cases ht : truthy ph
        · simp only [ht, if_true]
          cases extract_data (parse (ph.getD "")) pu with
          | error e => rfl
          | ok item =>
              dsimp only
              rw [(ih (save_to_database store item)).2]
        · simp only [ht, if_false]
          exact (ih store).2

/-- C3: the claim says a non-2xx status yields a failure and the page is
absent from the final list.  `fetch_page`, the synchronous variant, does
map HTTP 500 to `None`; but the run uses `async_fetch_page`, which omits
`raise_for_status`, so the 500 response's body comes back as a success
and the page DOES contribute an item: with `/page/2` answering 500, the
final list contains all three page urls. -/
theorem C3_status_error_not_failure :
    async_fetch_page id allowState demoNet500 "https://example.com/page/2" =
      (some "Internal Server Error", true) ∧
    fetch_page id allowState demoNet500 "https://example.com/page/2" = (none, true) ∧
    (async_scrape id trivialParse allowState demoNet500 "https://example.com" 3
          Store.empty).toOption.map (fun p => p.1.map ScrapedItem.url) =
      some ["https://example.com/page/1", "https://example.com/page/2",
        "https://example.com/page/3"] := by
  refine ⟨rfl, rfl, ?_⟩
  rfl

/-- C6 counterexample: a document whose `meta name=description` tag has no
`content` attribute — the description is missing from the markup, yet
`extract_data` raises `KeyError('content')` instead of degrading to the
empty string. -/
theorem C6_counterexample :
    extract_data [{ name := "meta", attrs := [("name", "description")], text := "" }]
        "https://example.com/page/1" =
      .error (.keyError "content") := rfl

/-- C6 (amended): `extract_data` is a pure function; an absent `h1`
degrades the title to the empty string and an absent `meta
name=description` tag degrades the description to the empty string; but a
present meta-description tag without a `content` attribute raises
`KeyError` instead of degrading. -/
theorem C6_extract_degrades_missing_fields (soup : Soup) (url : String) :
    (soup.findMetaDescription = none → extract_data soup url = .ok ⟨titleOf soup, "", url⟩) ∧
    (∀ t c, soup.findMetaDescription = some t → t.getAttr "content" = some c →
        extract_data soup url = .ok ⟨titleOf soup, c, url⟩) ∧
    (∀ t, soup.findMetaDescription = some t → t.getAttr "content" = none →
        extract_data soup url = .error (.keyError "content")) ∧
    (soup.find "h1" = none → titleOf soup = "") := by
  refine ⟨?_, ?_, ?_, ?_⟩
  · intro h
    simp [extract_data, titleOf, h]
  · intro t c ht hc
    simp [extract_data, titleOf, ht, hc]
  · intro t ht hc
    simp [extract_data, ht, hc]
  · intro h
    simp [titleOf, h]

/-- C6 witness: concrete documents for each branch — no tags at all; an
`h1` plus a full meta description; and the `h1`-only document. -/
theorem C6_extract_degrades_missing_fields_witness :
    extract_data [] "u" = .ok ⟨titleOf [], "", "u"⟩ ∧
    extract_data [{ name := "h1", attrs := [], text := " T " },
        { name := "meta", attrs := [("name", "description"), ("content", "D")], text := "" }] "u" =
      .ok ⟨titleOf [{ name := "h1", attrs := [], text := " T " },
        { name := "meta", attrs := [("name", "description"), ("content", "D")], text := "" }], "D", "u"⟩ ∧
    titleOf [] = "" :=
  ⟨(C6_extract_degrades_missing_fields [] "u").1 rfl,
   (C6_extract_degrades_missing_fields _ "u").2.1 _ "D" rfl rfl,
   (C6_extract_degrades_missing_fields [] "u").2.2.2 rfl⟩

theorem countUrl_save_self (s : Store) (item : ScrapedItem) :
    (save_to_database s item).countUrl item.url = 1 := by
  unfold save_to_database Store.countUrl
  rw [List.filter_append, List.filter_filter]
  simp

theorem countUrl_save_other (s : Store) (item : ScrapedItem) (u : String) (h : u ≠ item.url) :
    (save_to_database s item).countUrl u = s.countUrl u := by
  unfold save_to_database Store.countUrl
  rw [List.filter_append, List.filter_filter]
  have h2 : (List.filter (fun r => decide (r.url = item.url))
      [(⟨s.nextId, item.title, item.description, item.url⟩ : Row)]).length = 1 := by
    simp
  simp only [List.length_append]
  have h3 : ∀ r : Row, (decide (r.url = u) && decide (r.url ≠ item.url)) = decide (r.url = u) := by
    intro r
    by_cases hr : r.url = u
    · simp [hr, h]
    · simp [hr]
  rw [List.filter_congr (fun r _ => h3 r)]
  simp [h]
  exact fun hh => h hh.symm

theorem lookup_save_self (s : Store) (item : ScrapedItem) :
    (save_to_database s item).lookup item.url = some (item.title, item.description) := by
  unfold save_to_database Store.lookup
  rw [List.find?_append]
  have h1 : (s.rows.filter (fun r => r.url ≠ item.url)).find?
      (fun r => r.url = item.url) = none := by
    rw [List.find?_eq_none]
    intro r hr
    have := List.of_mem_filter hr
    simp at this
    simp [this]
  rw [h1]
  simp

theorem WF_save (s : Store) (item : ScrapedItem) (h : Store.WF s) :
    Store.WF (save_to_database s item) := by
  intro u
  by_cases hu : u = item.url
  · rw [hu, countUrl_save_self]
  · rw [countUrl_save_other s item u hu]
    exact h u

theorem WF_applyUpserts (items : List ScrapedItem) (s : Store) (h : Store.WF s) :
    Store.WF (applyUpserts items s) := by
  induction items generalizing s with
  | nil => exact h
  | cons a items ih => exact ih (save_to_database s a) (WF_save s a h)

/-- C5: upsert is keyed on `url` with last-writer-wins semantics — any
sequence of upserts on a store satisfying the UNIQUE constraint leaves it
satisfying the constraint (at most one row per url); upserting the same
item twice leaves exactly one row for that url holding its values; after
two upserts sharing a url, only the second item's title and description
are retrievable. -/
theorem C5_upsert_last_writer_wins :
    (∀ s : Store, Store.WF s → ∀ items, Store.WF (applyUpserts items s)) ∧
    (∀ (s : Store) (a : ScrapedItem),
        (save_to_database (save_to_database s a) a).countUrl a.url = 1 ∧
        (save_to_database (save_to_database s a) a).lookup a.url =
          some (a.title, a.description)) ∧
    (∀ (s : Store) (a b : ScrapedItem), a.url = b.url →
        (save_to_database (save_to_database s a) b).countUrl b.url = 1 ∧
        (save_to_database (save_to_database s a) b).lookup b.url =
          some (b.title, b.description)) := by
  refine ⟨fun s h items => WF_applyUpserts items s h, ?_, ?_⟩
  · intro s a
    exact ⟨countUrl_save_self _ a, lookup_save_self _ a⟩
  · intro s a b _
    exact ⟨countUrl_save_self _ b, lookup_save_self _ b⟩

/-- C5 witness: two concrete items sharing the url `u`; after both
upserts on the empty store only the second item's values are stored, in a
single row, and the whole history keeps the store well-formed. -/
theorem C5_upsert_last_writer_wins_witness :
    Store.WF (applyUpserts [⟨"t1", "d1", "u"⟩, ⟨"t2", "d2", "u"⟩] Store.empty) ∧
    (save_to_database (save_to_database Store.empty ⟨"t1", "d1", "u"⟩) ⟨"t2", "d2", "u"⟩).countUrl "u" = 1 ∧
    (save_to_database (save_to_database Store.empty ⟨"t1", "d1", "u"⟩) ⟨"t2", "d2", "u"⟩).lookup "u" =
      some ("t2", "d2") :=
  ⟨C5_upsert_last_writer_wins.1 Store.empty (fun u => by simp [Store.countUrl, Store.empty]) _,
   (C5_upsert_last_writer_wins.2.2 Store.empty ⟨"t1", "d1", "u"⟩ ⟨"t2", "d2", "u"⟩ rfl).1,
   (C5_upsert_last_writer_wins.2.2 Store.empty ⟨"t1", "d1", "u"⟩ ⟨"t2", "d2", "u"⟩ rfl).2⟩

/-- C4 counterexample: when the robots.txt GET answers HTTP 404 (the
document cannot be retrieved), `RobotFileParser.read` does NOT abort the
run — it falls back to `allow_all`, `can_fetch` then permits every url,
and the run proceeds to fetch pages (here one page is requested). -/
theorem C4_counterexample :
    RobotFileParser.read trivialRobots (.httpError 404) = .ok { allow_all := true } ∧
    can_fetch id { allow_all := true } "*" "https://example.com/page/1" = true ∧
    (runMain id trivialRobots trivialParse (.httpError 404)
        (fun _ => .response 200 "ok") "https://example.com" 1).isOk = true ∧
    requestedUrls id { allow_all := true } (fun _ => .response 200 "ok")
        (genUrls "https://example.com" 1) = ["https://example.com/page/1"] := by
  refine ⟨rfl, rfl, rfl, rfl⟩

/-- C4 (amended): a transport-level failure retrieving robots.txt does
abort the run before any page fetch; but an HTTP-error status does not
abort it, and the resulting default depends on the code: 401/403 set
`disallow_all` (fetch nothing), any other 4xx — e.g. 404 — sets
`allow_all` (a permissive fallback that fetches everything), and any
other code leaves the unread state, which denies every fetch. -/
theorem C4_policy_load_failure (parseRobots : String → RobotState)
    (parse : String → Soup) (pathOf : String → String) (net : String → FetchOutcome)
    (base u : String) (n code : Nat) :
    (runMain pathOf parseRobots parse .transportError net base n = .error .urlError) ∧
    (code = 401 ∨ code = 403 →
        RobotFileParser.read parseRobots (.httpError code) = .ok { disallow_all := true } ∧
        can_fetch pathOf { disallow_all := true } "*" u = false) ∧
    (400 ≤ code → code < 500 → code ≠ 401 → code ≠ 403 →
        RobotFileParser.read parseRobots (.httpError code) = .ok { allow_all := true } ∧
        can_fetch pathOf { allow_all := true } "*" u = true) ∧
    (code < 400 ∨ 500 ≤ code →
        RobotFileParser.read parseRobots (.httpError code) = .ok {} ∧
        can_fetch pathOf {} "*" u = false) := by
  refine ⟨rfl, ?_, ?_, ?_⟩
  · rintro (rfl | rfl) <;> exact ⟨rfl, rfl⟩
  · intro h1 h2 h3 h4
    refine ⟨?_, rfl⟩
    unfold RobotFileParser.read
    dsimp only
    rw [if_neg, if_pos]
    · simp only [Bool.and_eq_true, decide_eq_true_eq]
      constructor <;> omega
    · simp only [Bool.or_eq_true, decide_eq_true_eq]
      omega
  · intro h
    refine ⟨?_, rfl⟩
    unfold RobotFileParser.read
    dsimp only
    rw [if_neg, if_neg]
    · simp only [Bool.and_eq_true, decide_eq_true_eq]
      omega
    · simp only [Bool.or_eq_true, decide_eq_true_eq]
      omega

/-- C4 witness: the three HTTP-error regimes at codes 403, 404 and 500,
plus the fatal transport-error abort, on concrete inputs. -/
theorem C4_policy_load_failure_witness :
    (runMain id trivialRobots trivialParse .transportError
        (fun _ => .response 200 "ok") "https://example.com" 2 = .error .urlError) ∧
    (RobotFileParser.read trivialRobots (.httpError 403) = .ok { disallow_all := true } ∧
      can_fetch id { disallow_all := true } "*" "https://example.com/page/1" = false) ∧
    (RobotFileParser.read trivialRobots (.httpError 404) = .ok { allow_all := true } ∧
      can_fetch id { allow_all := true } "*" "https://example.com/page/1" = true) ∧
    (RobotFileParser.read trivialRobots (.httpError 500) = .ok {} ∧
      can_fetch id {} "*" "https://example.com/page/1" = false) :=
  ⟨(C4_policy_load_failure trivialRobots trivialParse id (fun _ => .response 200 "ok")
      "https://example.com" "https://example.com/page/1" 2 403).1,
   (C4_policy_load_failure trivialRobots trivialParse id (fun _ => .response 200 "ok")
      "https://example.com" "https://example.com/page/1" 2 403).2.1 (Or.inr rfl),
   (C4_policy_load_failure trivialRobots trivialParse id (fun _ => .response 200 "ok")
      "https://example.com" "https://example.com/page/1" 2 404).2.2.1
      (by decide) (by decide) (by decide) (by decide),
   (C4_policy_load_failure trivialRobots trivialParse id (fun _ => .response 200 "ok")
      "https://example.com" "https://example.com/page/1" 2 500).2.2.2 (Or.inr (by decide))⟩

theorem decVal_append (cs : List Char) (c : Char) :
    decVal (cs ++ [c]) = decVal cs * 10 + (c.toNat - 48) := by
  simp [decVal, List.foldl_append]

theorem toNat_digitChar (m : Nat) (h : m < 10) : (Char.ofNat (48 + m)).toNat = 48 + m := by
  interval_cases m <;> decide

theorem decVal_natDecAux (fuel : Nat) : ∀ n, n ≤ fuel → decVal (natDecAux fuel n) = n := by
  induction fuel with
  | zero =>
      intro n h
      interval_cases n
      rfl
  | succ fuel ih =>
      intro n h
      match n with
      | 0 => rfl
      | n + 1 =>
          rw [natDecAux, decVal_append]
          have hfuel : (n + 1) / 10 ≤ fuel := by
            have := Nat.div_lt_self (Nat.succ_pos n) (by norm_num : (1 : Nat) < 10)
            omega
          rw [ih _ hfuel, toNat_digitChar _ (Nat.mod_lt _ (by norm_num))]
          omega

theorem natDec_inj : Function.Injective natDec := by
  intro m n h
  have hd : natDecAux m m = natDecAux n n := congrArg String.data h
  have h1 := decVal_natDecAux m m (le_refl m)
  have h2 := decVal_natDecAux n n (le_refl n)
  rw [← h1, ← h2, hd]

theorem string_append_cancel_left (s a b : String) (h : s ++ a = s ++ b) : a = b := by
  have hd : s.data ++ a.data = s.data ++ b.data := by
    rw [← String.data_append, ← String.data_append, h]
  have := List.append_cancel_left hd
  exact congrArg String.mk this

theorem pageUrl_inj (base : String) : Function.Injective (fun page => base ++ "/page/" ++ natDec page) := by
  intro p q h
  exact natDec_inj (string_append_cancel_left (base ++ "/page/") _ _ h)

/-- C8: for every base origin and `max_pages ≥ 1`, the generated target
sequence has exactly `max_pages` urls, its `i`-th url is
`{base}/page/{i+1}` (ascending index order), the urls are pairwise
distinct, and every url for which the run issues a network request is one
of them. -/
theorem C8_url_generation (base : String) (n : Nat) (pathOf : String → String)
    (st : RobotState) (net : String → FetchOutcome) (h : 1 ≤ n) :
    (genUrls base n).length = n ∧
    (∀ i, i < n → (genUrls base n)[i]? = some (base ++ "/page/" ++ natDec (i + 1))) ∧
    (genUrls base n).Nodup ∧
    requestedUrls pathOf st net (genUrls base n) ⊆ genUrls base n := by
  refine ⟨by simp [genUrls], ?_, ?_, ?_⟩
  · intro i hi
    have hlen : i < (List.range' 1 n).length := by simpa using hi
    rw [genUrls, List.getElem?_map, List.getElem?_eq_getElem hlen, List.getElem_range']
    simp [Nat.add_comm]
  · exact (List.nodup_range' 1 n).map (pageUrl_inj base)
  · intro x hx
    exact (List.mem_filter.mp hx).1

/-- C8 witness: the default origin with three pages. -/
theorem C8_url_generation_witness :
    (genUrls "https://example.com" 3).length = 3 ∧
    (genUrls "https://example.com" 3)[1]? = some ("https://example.com" ++ "/page/" ++ natDec 2) ∧
    (genUrls "https://example.com" 3).Nodup :=
  ⟨(C8_url_generation "https://example.com" 3 id allowState (fun _ => .response 200 "ok")
      (by decide)).1,
   (C8_url_generation "https://example.com" 3 id allowState (fun _ => .response 200 "ok")
      (by decide)).2.1 1 (by decide),
   (C8_url_generation "https://example.com" 3 id allowState (fun _ => .response 200 "ok")
      (by decide)).2.2.1⟩

theorem gatherStep_length (results : List α) (slots : List (Option α)) (i : Nat) :
    (gatherStep results slots i).length = slots.length := by
  unfold gatherStep
  cases results[i]? with
  | some r => simp
  | none => rfl

theorem gatherFold_length (results : List α) (order : List Nat) (slots : List (Option α)) :
    (order.foldl (gatherStep results) slots).length = slots.length := by
  induction order generalizing slots with
  | nil => rfl
  | cons i order ih => rw [List.foldl_cons, ih, gatherStep_length]

theorem gatherFold_not_mem (results : List α) (order : List Nat) (slots : List (Option α))
    (j : Nat) (hj : j ∉ order) :
    (order.foldl (gatherStep results) slots)[j]? = slots[j]? := by
  induction order generalizing slots with
  | nil => rfl
  | cons i order ih =>
      rw [List.foldl_cons, ih _ (fun hmem => hj (List.mem_cons_of_mem i hmem))]
      unfold gatherStep
      cases results[i]? with
      | some r =>
          have hne : i ≠ j := fun he => hj (he ▸ List.mem_cons_self i order)
          simp [List.getElem?_set_ne hne]
      | none => rfl

theorem gatherFold_mem (results : List α) (order : List Nat) (slots : List (Option α))
    (j : Nat) (r : α) (hr : results[j]? = some r) (hmem : j ∈ order)
    (hlen : j < slots.length) :
    (order.foldl (gatherStep results) slots)[j]? = some (some r) := by
  induction order generalizing slots with
  | nil => cases hmem
  | cons i order ih =>
      rw [List.foldl_cons]
      by_cases hjo : j ∈ order
      · exact ih _ hjo (by rw [gatherStep_length]; exact hlen)
      · have hij : j = i := by
          cases List.mem_cons.mp hmem with
          | inl h => exact h
          | inr h => exact absurd h hjo
        subst hij
        rw [gatherFold_not_mem results order _ j hjo]
        unfold gatherStep
        rw [hr]
        exact List.getElem?_set_self hlen

theorem gatherRun_perm (results : List α) (order : List Nat)
    (h : order.Perm (List.range results.length)) :
    gatherRun results order = results.map some := by
  apply List.ext_getElem?
  intro j
  by_cases hj : j < results.length
  · have hmem : j ∈ order := (h.mem_iff).mpr (List.mem_range.mpr hj)
    rw [gatherRun, gatherFold_mem results order _ j results[j]
        (List.getElem?_eq_getElem hj) hmem (by simpa using hj)]
    rw [List.getElem?_map, List.getElem?_eq_getElem hj]
    rfl
  · have h1 : (gatherRun results order).length ≤ j := by
      rw [gatherRun, gatherFold_length]
      simpa using Nat.le_of_not_lt hj
    have h2 : (results.map some).length ≤ j := by
      simpa using Nat.le_of_not_lt hj
    rw [List.getElem?_eq_none h1, List.getElem?_eq_none h2]

/-- C2: for every url sequence and every completion order of the
concurrent requests, the gathered result sequence has the length of the
input sequence and its `i`-th element is the fetch result of the `i`-th
input url — completion order never changes the gathered sequence. -/
theorem C2_gather_preserves_order (pathOf : String → String) (st : RobotState)
    (net : String → FetchOutcome) (urls : List String) (order : List Nat)
    (h : order.Perm (List.range urls.length)) :
    gatherRun (fetchPhase pathOf st net urls) order =
      (fetchPhase pathOf st net urls).map some ∧
    (fetchPhase pathOf st net urls).length = urls.length ∧
    (∀ i, i < urls.length →
      (fetchPhase pathOf st net urls)[i]? =
        (urls[i]?).map (fun u => (async_fetch_page pathOf st net u).1)) := by
  refine ⟨?_, by simp [fetchPhase], ?_⟩
  · apply gatherRun_perm
    simpa [fetchPhase] using h
  · intro i hi
    rw [fetchPhase, List.getElem?_map]

/-- C2 witness: three urls, completing out of order (third, first,
second). -/
theorem C2_gather_preserves_order_witness :
    gatherRun (fetchPhase id allowState (fun _ => .response 200 "ok")
        ["https://example.com/page/1", "https://example.com/page/2", "https://example.com/page/3"])
        [2, 0, 1] =
      (fetchPhase id allowState (fun _ => .response 200 "ok")
        ["https://example.com/page/1", "https://example.com/page/2", "https://example.com/page/3"]).map some ∧
    (fetchPhase id allowState (fun _ => .response 200 "ok")
        ["https://example.com/page/1", "https://example.com/page/2", "https://example.com/page/3"]).length = 3 :=
  ⟨(C2_gather_preserves_order id allowState (fun _ => .response 200 "ok")
      ["https://example.com/page/1", "https://example.com/page/2", "https://example.com/page/3"]
      [2, 0, 1] (by decide)).1,
   (C2_gather_preserves_order id allowState (fun _ => .response 200 "ok")
      ["https://example.com/page/1", "https://example.com/page/2", "https://example.com/page/3"]
      [2, 0, 1] (by decide)).2.1⟩

theorem Sched_invariant {n : Nat} {evs : List FetchEv} {started inflight : List Nat}
    (h : Sched n evs started inflight) :
    inflight.Nodup ∧ inflight ⊆ started ∧ started.Nodup ∧ ∀ i ∈ started, i < n := by
  induction h with
  | nil =>
      exact ⟨List.nodup_nil, fun x hx => absurd hx (List.not_mem_nil x),
        List.nodup_nil, fun i hi => absurd hi (List.not_mem_nil i)⟩
  | start i h1 h2 prev ih =>
      obtain ⟨hn, hsub, hsn, hlt⟩ := ih
      refine ⟨?_, ?_, ?_, ?_⟩
      · exact List.nodup_cons.mpr ⟨fun hmem => h2 (hsub hmem), hn⟩
      · intro x hx
        cases List.mem_cons.mp hx with
        | inl he => exact he ▸ List.mem_cons_self _ _
        | inr hm => exact List.mem_cons_of_mem _ (hsub hm)
      · exact List.nodup_cons.mpr ⟨h2, hsn⟩
      · intro x hx
        cases List.mem_cons.mp hx with
        | inl he => exact he ▸ h1
        | inr hm => exact hlt x hm
  | finish i h prev ih =>
      obtain ⟨hn, hsub, hsn, hlt⟩ := ih
      exact ⟨hn.erase i, fun x hx => hsub (List.mem_of_mem_erase hx), hsn, hlt⟩

/-- C9 counterexample: the gather of `async_scrape` creates no semaphore
and takes no concurrency-limit parameter, so with the default five pages
there is an admissible execution in which all five requests are in flight
simultaneously — exceeding any would-be configured limit below the page
count (for instance 4). -/
theorem C9_counterexample :
    (genUrls "https://example.com" 5).length = 5 ∧
    (requestedUrls id allowState (fun _ => .response 200 "ok")
        (genUrls "https://example.com" 5)).length = 5 ∧
    Sched (genUrls "https://example.com" 5).length
      [FetchEv.start 0, FetchEv.start 1, FetchEv.start 2, FetchEv.start 3, FetchEv.start 4]
      [4, 3, 2, 1, 0] [4, 3, 2, 1, 0] ∧
    ([4, 3, 2, 1, 0] : List Nat).length = 5 ∧ 4 < 5 :=
  ⟨by decide, by decide,
   Sched.start 4 (by decide) (by decide)
     (Sched.start 3 (by decide) (by decide)
       (Sched.start 2 (by decide) (by decide)
         (Sched.start 1 (by decide) (by decide)
           (Sched.start 0 (by decide) (by decide) Sched.nil)))),
   by decide, by decide⟩

/-- C9 (amended): the number of simultaneously in-flight requests of the
fetch phase is bounded only by the number of generated urls — in every
admissible execution of the unbounded gather over the run's tasks, the
in-flight set never exceeds the url count; no smaller configured limit
exists. -/
theorem C9_inflight_bounded_by_page_count (base : String) (max_pages : Nat)
    (evs : List FetchEv) (started inflight : List Nat)
    (h : Sched (genUrls base max_pages).length evs started inflight) :
    inflight.length ≤ (genUrls base max_pages).length := by
  obtain ⟨hn, hsub, hsn, hlt⟩ := Sched_invariant h
  have h1 : inflight.Subperm started := List.subperm_of_subset hn hsub
  have h2 : started.Subperm (List.range (genUrls base max_pages).length) :=
    List.subperm_of_subset hsn (fun x hx => List.mem_range.mpr (hlt x hx))
  calc inflight.length ≤ started.length := h1.length_le
    _ ≤ (List.range (genUrls base max_pages).length).length := h2.length_le
    _ = (genUrls base max_pages).length := List.length_range _

/-- C9 witness: a two-page run with one request in flight. -/
theorem C9_inflight_bounded_by_page_count_witness :
    ([0] : List Nat).length ≤ (genUrls "https://example.com" 2).length :=
  C9_inflight_bounded_by_page_count "https://example.com" 2 _ [0] [0]
    (Sched.start 0 (by decide) (by decide) Sched.nil)

theorem not_needsQuote_chars {s : List Char} (h : needsQuote s = false) :
    ∀ c ∈ s, c ≠ ',' ∧ c ≠ '"' ∧ c ≠ '\r' ∧ c ≠ '\n' := by
  intro c hc
  unfold needsQuote at h
  rw [List.any_eq_false] at h
  have := h c hc
  simp at this
  tauto

theorem parseQuoted_escape (s r : List Char) (hr : r.head? ≠ some '"') :
    parseQuoted (escapeQuotes s ++ '"' :: r) = some (s, r) := by
  induction s with
  | nil =>
      show parseQuoted ('"' :: r) = some ([], r)
      unfold parseQuoted
      rw [if_pos rfl]
      cases r with
      | nil => rfl
      | cons c2 r2 =>
          have hc2 : ¬ c2 = '"' := fun he => hr (by rw [List.head?_cons, he])
          dsimp only
          rw [if_neg hc2]
  | cons c s ih =>
      by_cases hc : c = '"'
      · subst hc
        show parseQuoted ('"' :: '"' :: (escapeQuotes s ++ '"' :: r)) = some ('"' :: s, r)
        unfold parseQuoted
        rw [if_pos rfl]
        dsimp only
        rw [if_pos rfl, ih]
        rfl
      · show parseQuoted (escapeQuotes (c :: s) ++ '"' :: r) = some (c :: s, r)
        unfold escapeQuotes
        rw [if_neg hc]
        show parseQuoted (c :: (escapeQuotes s ++ '"' :: r)) = some (c :: s, r)
        unfold parseQuoted
        rw [if_neg hc, ih]
        rfl

theorem takeWhile_append_of (p : Char → Bool) (s r : List Char)
    (hs : ∀ c ∈ s, p c = true) (hr : ∀ c, r.head? = some c → p c = false) :
    (s ++ r).takeWhile p = s ∧ (s ++ r).dropWhile p = r := by
  induction s with
  | nil =>
      cases r with
      | nil => exact ⟨rfl, rfl⟩
      | cons c r2 =>
          have hc := hr c rfl
          constructor
          · show List.takeWhile p (c :: r2) = []
            simp [List.takeWhile_cons, hc]
          · show List.dropWhile p (c :: r2) = c :: r2
            simp [List.dropWhile_cons, hc]
  | cons c s ih =>
      have hc : p c = true := hs c (List.mem_cons_self c s)
      have ihs : ∀ x ∈ s, p x = true := fun x hx => hs x (List.mem_cons_of_mem c hx)
      obtain ⟨h1, h2⟩ := ih ihs
      constructor
      · show List.takeWhile p (c :: (s ++ r)) = c :: s
        rw [List.takeWhile_cons, hc]
        simp [h1]
      · show List.dropWhile p (c :: (s ++ r)) = r
        rw [List.dropWhile_cons, hc]
        simpa using h2

theorem parseField_write (s r : List Char)
    (hr : r.head? = none ∨ r.head? = some ',' ∨ r.head? = some '\r') :
    parseField (writeField s ++ r) = some (s, r) := by
  have hrq : r.head? ≠ some '"' := by
    rcases hr with h | h | h <;> rw [h] <;> simp
  by_cases hq : needsQuote s
  · unfold writeField
    rw [if_pos hq]
    have hassoc : ('"' :: (escapeQuotes s ++ ['"'])) ++ r =
        '"' :: (escapeQuotes s ++ '"' :: r) := by simp
    rw [hassoc]
    unfold parseField
    dsimp only
    rw [if_pos rfl]
    exact parseQuoted_escape s r hrq
  · have hchars := not_needsQuote_chars (eq_false_of_ne_true hq)
    unfold writeField
    rw [if_neg hq]
    have hs : ∀ c ∈ s, (fun x => !isFieldEnd x) c = true := by
      intro c hc
      obtain ⟨h1, h2, h3, h4⟩ := hchars c hc
      simp [isFieldEnd, h1, h3, h4]
    have hrend : ∀ c, r.head? = some c → (fun x => !isFieldEnd x) c = false := by
      intro c hcr
      rcases hr with h | h | h <;> rw [h] at hcr
      · cases hcr
      · cases hcr
        simp [isFieldEnd]
      · cases hcr
        simp [isFieldEnd]
    obtain ⟨h1, h2⟩ := takeWhile_append_of _ s r hs hrend
    cases hse : s ++ r with
    | nil =>
        have hsnil : s = [] := by
          cases s with
          | nil => rfl
          | cons a b => simp at hse
        have hrnil : r = [] := by
          cases r with
          | nil => rfl
          | cons a b =>
              rw [hsnil] at hse
              simp at hse
        rw [hsnil, hrnil]
        rfl
    | cons c rest =>
        unfold parseField
        have hcq : ¬ c = '"' := by
          cases s with
          | nil =>
              rw [List.nil_append] at hse
              intro he
              apply hrq
              rw [hse, List.head?_cons, he]
          | cons a b =>
              rw [List.cons_append] at hse
              cases hse
              intro he
              exact (hchars c (List.mem_cons_self c b)).2.1 he
        dsimp only
        rw [if_neg hcq]
        rw [← hse, h1, h2]

theorem writeRecord_cons2 (f f2 : List Char) (fs2 : List (List Char)) :
    writeRecord (f :: f2 :: fs2) = writeField f ++ ',' :: writeRecord (f2 :: fs2) := rfl

theorem parseRecord_write (fs : List (List Char)) (rest : List Char) (fuel : Nat)
    (hne : fs ≠ []) (hfuel : fs.length ≤ fuel) :
    parseRecord fuel (writeRecord fs ++ '\r' :: '\n' :: rest) = some (fs, rest) := by
  induction fs generalizing fuel rest with
  | nil => exact absurd rfl hne
  | cons f fs ih =>
      cases fuel with
      | zero => simp at hfuel
      | succ fuel =>
          cases fs with
          | nil =>
              show parseRecord (fuel + 1) (writeField f ++ '\r' :: '\n' :: rest) = some ([f], rest)
              rw [parseRecord,
                parseField_write f ('\r' :: '\n' :: rest) (Or.inr (Or.inr rfl))]
              rfl
          | cons f2 fs2 =>
              have hassoc : writeRecord (f :: f2 :: fs2) ++ '\r' :: '\n' :: rest =
                  writeField f ++ ',' :: (writeRecord (f2 :: fs2) ++ '\r' :: '\n' :: rest) := by
                rw [writeRecord_cons2]
                simp
              rw [hassoc, parseRecord,
                parseField_write f (',' :: (writeRecord (f2 :: fs2) ++ '\r' :: '\n' :: rest))
                  (Or.inr (Or.inl rfl))]
              show Option.map (fun p => (f :: p.1, p.2))
                  (parseRecord fuel (writeRecord (f2 :: fs2) ++ '\r' :: '\n' :: rest)) =
                some (f :: f2 :: fs2, rest)
              rw [ih rest fuel (List.cons_ne_nil f2 fs2) (by simpa using hfuel)]
              rfl

theorem writeLine_length (fs : List (List Char)) : 1 ≤ (writeLine fs).length := by
  simp [writeLine]

theorem writeRecord_length_ge (fs : List (List Char)) :
    fs.length ≤ (writeRecord fs).length + 1 := by
  induction fs with
  | nil => simp [writeRecord]
  | cons f fs ih =>
      cases fs with
      | nil => simp [writeRecord]
      | cons f2 fs2 =>
          rw [writeRecord_cons2]
          simp only [List.length_append, List.length_cons]
          simp only [List.length_cons] at ih
          omega

theorem parseRows_write (rs : List (List (List Char))) (fuel : Nat)
    (hrs : ∀ r ∈ rs, r ≠ []) (hfuel : rs.length ≤ fuel) :
    parseRows fuel ((rs.map writeLine).flatten) = some rs := by
  induction rs generalizing fuel with
  | nil => cases fuel <;> simp [parseRows]
  | cons r rs ih =>
      cases fuel with
      | zero => simp at hfuel
      | succ fuel =>
          have hs : (((r :: rs).map writeLine).flatten) =
              writeRecord r ++ '\r' :: '\n' :: ((rs.map writeLine).flatten) := by
            simp [writeLine]
          have hnonnil : (((r :: rs).map writeLine).flatten) ≠ [] := by
            rw [hs]
            intro he
            have := congrArg List.length he
            simp at this
          rw [parseRows, if_neg hnonnil]
          have hflen : r.length ≤ (((r :: rs).map writeLine).flatten).length + 1 := by
            rw [hs]
            have h1 := writeRecord_length_ge r
            simp only [List.length_append, List.length_cons]
            omega
          rw [hs, parseRecord_write r _ _ (hrs r (List.mem_cons_self r rs))
            (by rw [← hs]; exact hflen)]
          dsimp only
          rw [ih fuel (fun x hx => hrs x (List.mem_cons_of_mem r hx)) (by simpa using hfuel)]
          rfl

theorem mkString_data (s : String) : (⟨s.data⟩ : String) = s := rfl

theorem parseCSV_export (items : List ScrapedItem) :
    parseCSV (export_to_csv items) =
      some (["title", "description", "url"] ::
        items.map (fun i => [i.title, i.description, i.url])) := by
  unfold parseCSV export_to_csv
  have hrs : ∀ r ∈ (headerFields :: items.map itemFields), r ≠ [] := by
    intro r hr
    cases List.mem_cons.mp hr with
    | inl h => rw [h]; simp [headerFields]
    | inr h =>
        obtain ⟨i, _, hi⟩ := List.mem_map.mp h
        rw [← hi]
        simp [itemFields]
  have hlen : (headerFields :: items.map itemFields).length ≤
      ((((headerFields :: items.map itemFields)).map writeLine).flatten).length := by
    generalize (headerFields :: items.map itemFields) = rs
    induction rs with
    | nil => simp
    | cons a as ih =>
        simp only [List.map_cons, List.flatten_cons, List.length_append, List.length_cons]
        have := writeLine_length a
        omega
  rw [parseRows_write _ _ hrs hlen]
  simp only [Option.map_some']
  congr 1
  rw [List.map_cons, List.map_map]
  congr 1

/-- C7: exporting any list of items to CSV (header `title,description,url`,
one row per item, default minimal quoting, `\r\n` terminators) and
parsing the text back yields, after the header, exactly the original
sequence of `(title, description, url)` tuples — in particular the same
set of tuples. -/
theorem C7_csv_roundtrip (items : List ScrapedItem) :
    parseBackTuples (export_to_csv items) =
      some (items.map (fun i => (i.title, i.description, i.url))) ∧
    ∀ ts, parseBackTuples (export_to_csv items) = some ts →
      ∀ t, t ∈ ts ↔ t ∈ items.map (fun i => (i.title, i.description, i.url)) := by
  have h1 : parseBackTuples (export_to_csv items) =
      some (items.map (fun i => (i.title, i.description, i.url))) := by
    unfold parseBackTuples
    rw [parseCSV_export]
    simp only [Option.map_some', List.tail_cons, List.map_map]
    congr 1
  refine ⟨h1, ?_⟩
  intro ts hts t
  rw [h1] at hts
  cases hts
  rfl

/-- C7 witness: a roundtrip over items exercising commas, quotes, CR/LF
and empty fields. -/
theorem C7_csv_roundtrip_witness :
    parseBackTuples (export_to_csv
        [⟨"a,b", "he said \"hi\"", "https://x/1"⟩, ⟨"", "line\r\nbreak", "https://x/2"⟩]) =
      some [("a,b", "he said \"hi\"", "https://x/1"), ("", "line\r\nbreak", "https://x/2")] ∧
    (("a,b", "he said \"hi\"", "https://x/1") ∈
        [("a,b", "he said \"hi\"", "https://x/1"), ("", "line\r\nbreak", "https://x/2")] ↔
      ("a,b", "he said \"hi\"", "https://x/1") ∈
        ([⟨"a,b", "he said \"hi\"", "https://x/1"⟩,
          ⟨"", "line\r\nbreak", "https://x/2"⟩] : List ScrapedItem).map
          (fun i => (i.title, i.description, i.url))) :=
  ⟨(C7_csv_roundtrip
      [⟨"a,b", "he said \"hi\"", "https://x/1"⟩, ⟨"", "line\r\nbreak", "https://x/2"⟩]).1,
   (C7_csv_roundtrip
      [⟨"a,b", "he said \"hi\"", "https://x/1"⟩, ⟨"", "line\r\nbreak", "https://x/2"⟩]).2
      _ (C7_csv_roundtrip
        [⟨"a,b", "he said \"hi\"", "https://x/1"⟩, ⟨"", "line\r\nbreak", "https://x/2"⟩]).1
      ("a,b", "he said \"hi\"", "https://x/1")⟩

end Scraper
